import Mathlib

/-!
Verification of the template composition and rendering engine of the
`grimoire` project scaffolder.

The development shallowly embeds the engine's core operations:

* the layered composer built on `copyDirSafeAsync` / `copyFileSafeAsync`
  (`src/core/fs.ts`, lines 47-88), applied layer by layer in
  `writeStarterTemplate` (`summon/package/setup.ts`) in ascending
  precedence order;
* the visibility pruner `removeMatchingFilesRecursively` /
  `removeFilesByBasename` (`src/core/fs.ts`, lines 97-141);
* the per-file mustache render pass of `renderMustacheTemplates`
  (`src/core/fs.ts`, lines 150-202), including the masking of GitHub
  Actions `$\x7b\x7b ... \x7d\x7d` expressions and the text substitution
  semantics of the mustache.js calls it makes;
* the remote template registry (`src/core/template-registry.ts`):
  `listAvailableTemplates` with its API-listing-then-download fallback and
  `downloadRemoteTemplatesSubdir` with its result cache and in-flight
  request coalescing.

Directory trees are modelled as finite trees of named entries; text is
`List Char`; fallible operations return `Except`.
-/

/-- A directory listing: a sequence of named entries, each either a regular
file with text content or a subdirectory with its own listing.  This models
the part of the file system that `copyDirSafeAsync` and friends traverse;
symlinks and other non-regular entries are out of scope (they are skipped
by the `isFile()` / `isDirectory()` checks in `src/core/fs.ts`). -/
inductive FTree where
  | nil : FTree
  | file (name : String) (content : List Char) (rest : FTree) : FTree
  | dir (name : String) (children : FTree) (rest : FTree) : FTree
deriving DecidableEq

/-- One resolved entry of a directory listing. -/
inductive FEntry where
  | file (content : List Char) : FEntry
  | dir (children : FTree) : FEntry
deriving DecidableEq

/-- Find the first entry with the given name in a listing. -/
def lookupEntry : FTree → String → Option FEntry
  | .nil, _ => none
  | .file n c rest, m => if n = m then some (.file c) else lookupEntry rest m
  | .dir n ch rest, m => if n = m then some (.dir ch) else lookupEntry rest m

/-- Overwrite (or create) the entry with the given name as a regular file
with content `c`.  Models `fs.promises.copyFile` writing a destination
file, as called by `copyFileSafeAsync` (`src/core/fs.ts`, line 59). -/
def setFileEntry : FTree → String → List Char → FTree
  | .nil, m, c => .file m c .nil
  | .file n c0 rest, m, c =>
    if n = m then .file n c rest else .file n c0 (setFileEntry rest m c)
  | .dir n ch rest, m, c =>
    if n = m then .file n c rest else .dir n ch (setFileEntry rest m c)

/-- Overwrite (or create) the entry with the given name as a directory with
listing `d`. -/
def setDirEntry : FTree → String → FTree → FTree
  | .nil, m, d => .dir m d .nil
  | .file n c rest, m, d =>
    if n = m then .dir n d rest else .file n c (setDirEntry rest m d)
  | .dir n ch rest, m, d =>
    if n = m then .dir n d rest else .dir n ch (setDirEntry rest m d)

/-- Recursive overwriting copy of a source listing onto a destination
listing, mirroring `copyDirSafeAsync` (`src/core/fs.ts`, lines 67-88) with
`copyFileSafeAsync` (lines 47-60) for file entries:

* source entries are processed in listing order;
* a source file overwrites any destination file at the same name; copying
  a file over an existing destination *directory* fails (`copyFile` raises
  `EISDIR`), which the model reports as `Except.error`;
* a source directory is copied recursively onto the destination entry of
  the same name, which is created when missing (`ensureDirAsync`); if the
  destination entry is an existing *file*, `mkdir` raises `EEXIST`, again
  reported as `Except.error`. -/
def copyTree : FTree → FTree → Except Unit FTree
  | .nil, dest => .ok dest
  | .file n c rest, dest =>
    match lookupEntry dest n with
    | some (.dir _) => .error ()
    | _ => copyTree rest (setFileEntry dest n c)
  | .dir n sub rest, dest =>
    match lookupEntry dest n with
    | some (.file _) => .error ()
    | some (.dir d) =>
      match copyTree sub d with
      | .error e => .error e
      | .ok d2 => copyTree rest (setDirEntry dest n d2)
    | none =>
      match copyTree sub .nil with
      | .error e => .error e
      | .ok d2 => copyTree rest (setDirEntry dest n d2)

/-- Follow a relative path (a nonempty list of entry names) through a
listing; the empty path denotes the listing itself. -/
def lookupPath (t : FTree) : List String → Option FEntry
  | [] => some (.dir t)
  | [n] => lookupEntry t n
  | n :: rest =>
    match lookupEntry t n with
    | some (.dir d) => lookupPath d rest
    | _ => none

/-- The entry names of a listing, in order. -/
def entryNames : FTree → List String
  | .nil => []
  | .file n _ rest => n :: entryNames rest
  | .dir n _ rest => n :: entryNames rest

/-- Well-formedness of a real directory tree: entry names are distinct at
every level (guaranteed by the file system). -/
def nodups : FTree → Bool
  | .nil => true
  | .file n _ rest => !(entryNames rest).contains n && nodups rest
  | .dir n ch rest => !(entryNames rest).contains n && nodups ch && nodups rest

/-- Apply an ordered layer plan onto a target listing, ascending
precedence: each layer is copied over the accumulated result, exactly as
the successive `copyDirSafeAsync` calls of `writeStarterTemplate` /
`writePackageTemplateFiles` do. -/
def composeLayers : List FTree → FTree → Except Unit FTree
  | [], t => .ok t
  | l :: ls, t =>
    match copyTree l t with
    | .error e => .error e
    | .ok t2 => composeLayers ls t2

/-- Mirrors one optional-layer step of `writeStarterTemplate`
(`src/unnamed/part_013`, lines 94-119): the resolve and copy of a shared
layer are wrapped in `try { ... } catch \x7b\x7d`, so a failed resolution
(for example `NotFound`) or a failed copy leaves the target as it was and
raises nothing.  Copy failures are modelled atomically (the claims proved
about this function only exercise the resolve-failure path, where the copy
never starts). -/
def applyOptionalLayer (t : FTree) (r : Except Unit FTree) : FTree :=
  match r with
  | .error _ => t
  | .ok src =>
    match copyTree src t with
    | .error _ => t
    | .ok t2 => t2

/-- Mirrors `writeStarterTemplate` (`src/unnamed/part_013`, lines 88-128):
the three shared layers (global, language, item) are applied with errors
swallowed, then the caller's chosen template layer is resolved and copied
*outside* any `try`, so its failure propagates.  The four `Except`
arguments are the outcomes of the four `resolveTemplatesDir` calls. -/
def writeStarterTemplate (t0 : FTree) (r1 r2 r3 rT : Except Unit FTree) :
    Except Unit FTree :=
  let t1 := applyOptionalLayer t0 r1
  let t2 := applyOptionalLayer t1 r2
  let t3 := applyOptionalLayer t2 r3
  match rT with
  | .error e => .error e
  | .ok src => copyTree src t3

/-- Mirrors `removeMatchingFilesRecursively` (`src/core/fs.ts`, lines
97-127) acting on a directory listing that was read in full before any
deletion (the `readdir` at line 103): an entry whose basename satisfies
the predicate is removed — a directory wholesale, without recursing into
it — while non-matching directories are traversed recursively. -/
def removeMatching (pred : String → Bool) : FTree → FTree
  | .nil => .nil
  | .file n c rest =>
    if pred n then removeMatching pred rest
    else .file n c (removeMatching pred rest)
  | .dir n sub rest =>
    if pred n then removeMatching pred rest
    else .dir n (removeMatching pred sub) (removeMatching pred rest)

/-- Mirrors `removeFilesByBasename` (`src/core/fs.ts`, lines 135-141): the
predicate is membership of the basename in the given set of names, and a
missing root directory (`readdir` throws, caught at line 104) is a no-op. -/
def removeFilesByBasename (names : List String) : Option FTree → Option FTree
  | none => none
  | some t => some (removeMatching (fun n => names.contains n) t)

-- ### The render pass: masking, mustache substitution, unmasking

/-- Split `cs` at the first occurrence of the pattern `pat`, returning the
text before the occurrence and the text after it. -/
def splitOnFirst (pat : List Char) : List Char → Option (List Char × List Char)
  | [] => if pat.isEmpty then some ([], []) else none
  | c :: rest =>
    if pat.isPrefixOf (c :: rest) then some ([], (c :: rest).drop pat.length)
    else
      match splitOnFirst pat rest with
      | some (b, a) => some (c :: b, a)
      | none => none

/-- The opening delimiter of a GitHub Actions expression, `$\x7b\x7b`. -/
def ghOpen : List Char := ['$', '{', '{']

/-- The closing delimiter of a GitHub Actions expression, `\x7d\x7d`. -/
def ghClose : List Char := ['}', '}']

/-- The positional placeholder `__GH_EXPR_<i>__` used while masking
(`src/core/fs.ts`, line 172). -/
def ghToken (i : Nat) : List Char :=
  "__GH_EXPR_".data ++ (Nat.repr i).data ++ "__".data

/-- Fuelled worker for `maskGh`; the fuel only bounds the recursion and is
always sufficient at the call site (each step consumes at least the two
delimiters).  Mirrors the global lazy-regex replacement at `src/core/fs.ts`
lines 169-175: scan for `$\x7b\x7b`, then for the *first* following
`\x7d\x7d` (the `[\s\S]*?` is non-greedy); each matched span is replaced by
the next positional token and recorded in order; an opening with no
matching close anywhere after it produces no further match, leaving the
rest of the text untouched. -/
def maskGo (fuel : Nat) (cs : List Char) (i : Nat) :
    List Char × List (List Char) :=
  match fuel with
  | 0 => (cs, [])
  | fuel + 1 =>
    match splitOnFirst ghOpen cs with
    | none => (cs, [])
    | some (b, rest1) =>
      match splitOnFirst ghClose rest1 with
      | none => (cs, [])
      | some (content, rest2) =>
        let expr := ghOpen ++ content ++ ghClose
        let r := maskGo fuel rest2 (i + 1)
        (b ++ ghToken i ++ r.1, expr :: r.2)

/-- Mask every GitHub Actions expression span in the text, returning the
masked text and the recorded spans in capture order. -/
def maskGh (cs : List Char) : List Char × List (List Char) :=
  maskGo (cs.length + 1) cs 0

/-- Errors of the modelled mustache.js engine.  `fuelExhausted` is an
artefact of the fuelled recursion and is never produced when the fuel is
chosen from the input length, as the callers below do. -/
inductive MErr where
  | unclosedTag : MErr
  | unopenedSection (name : List Char) : MErr
  | unclosedSection (name : List Char) : MErr
  | unsupportedTag : MErr
  | fuelExhausted : MErr
deriving DecidableEq

/-- Mustache tag kinds in the modelled fragment: interpolation, section
open (`#`), inverted section open (`^`), section close (`/`). -/
inductive MKind where
  | plain : MKind
  | hash : MKind
  | caret : MKind
  | slash : MKind
deriving DecidableEq

/-- A lexed template item: literal text or a tag. -/
inductive MItem where
  | text (s : List Char) : MItem
  | tag (k : MKind) (name : List Char) : MItem
deriving DecidableEq

/-- Strip leading and trailing whitespace, as mustache.js does around tag
names (`\s*` in its opening/closing tag patterns). -/
def trimChars (cs : List Char) : List Char :=
  ((cs.dropWhile Char.isWhitespace).reverse.dropWhile
    Char.isWhitespace).reverse

/-- Classify the content found between `\x7b\x7b` and `\x7d\x7d`.  The
leading sigils `#`, `^`, `/` select section-open, inverted-open and close
tags; the remaining mustache.js sigils (partials, triple-stache, comments,
delimiter changes) are outside the engine fragment the spec describes and
are reported as `unsupportedTag`; anything else is plain interpolation. -/
def parseTagContent (content : List Char) : Except MErr MItem :=
  match trimChars content with
  | '#' :: rest => .ok (.tag .hash (trimChars rest))
  | '^' :: rest => .ok (.tag .caret (trimChars rest))
  | '/' :: rest => .ok (.tag .slash (trimChars rest))
  | '>' :: _ => .error .unsupportedTag
  | '{' :: _ => .error .unsupportedTag
  | '&' :: _ => .error .unsupportedTag
  | '=' :: _ => .error .unsupportedTag
  | '!' :: _ => .error .unsupportedTag
  | other => .ok (.tag .plain other)

/-- The mustache opening delimiter `\x7b\x7b`. -/
def mustOpen : List Char := ['{', '{']

/-- The mustache closing delimiter `\x7d\x7d`. -/
def mustClose : List Char := ['}', '}']

/-- Fuelled lexer mirroring mustache.js `parseTemplate`'s scanning loop:
text up to the next `\x7b\x7b`, then the tag content up to the next
`\x7d\x7d`; an opening tag with no closing delimiter anywhere after it is
an "Unclosed tag" error, exactly as `parseTemplate` throws.  Fuel is always
sufficient at the call site. -/
def lexGo (fuel : Nat) (cs : List Char) : Except MErr (List MItem) :=
  match fuel with
  | 0 => .error .fuelExhausted
  | fuel + 1 =>
    match splitOnFirst mustOpen cs with
    | none => .ok [.text cs]
    | some (b, rest1) =>
      match splitOnFirst mustClose rest1 with
      | none => .error .unclosedTag
      | some (content, rest2) =>
        match parseTagContent content with
        | .error e => .error e
        | .ok item =>
          match lexGo fuel rest2 with
          | .error e => .error e
          | .ok items => .ok (.text b :: item :: items)

/-- Lex a whole template. -/
def lexTemplate (cs : List Char) : Except MErr (List MItem) :=
  lexGo (cs.length + 1) cs

/-- The parsed template: literal text, interpolations, and (possibly
inverted) sections, mirroring the token tree mustache.js `nestTokens`
builds. -/
inductive MAst where
  | nil : MAst
  | text (s : List Char) (rest : MAst) : MAst
  | var (k : List Char) (rest : MAst) : MAst
  | sect (k : List Char) (inverted : Bool) (body : MAst) (rest : MAst) : MAst
deriving DecidableEq

/-- Fuelled nesting of the flat item list into a token tree, mirroring
mustache.js section nesting and its errors: a close tag with no matching
open ("Unopened section"), and an open section left unclosed at the end of
the template ("Unclosed section").  Fuel is always sufficient at the call
site. -/
def buildGo (fuel : Nat) (stop : Option (List Char)) (items : List MItem) :
    Except MErr (MAst × List MItem) :=
  match fuel with
  | 0 => .error .fuelExhausted
  | fuel + 1 =>
    match items with
    | [] =>
      match stop with
      | none => .ok (.nil, [])
      | some k => .error (.unclosedSection k)
    | .text s :: rest =>
      match buildGo fuel stop rest with
      | .error e => .error e
      | .ok r => .ok (.text s r.1, r.2)
    | .tag .plain k :: rest =>
      match buildGo fuel stop rest with
      | .error e => .error e
      | .ok r => .ok (.var k r.1, r.2)
    | .tag .hash k :: rest =>
      match buildGo fuel (some k) rest with
      | .error e => .error e
      | .ok rb =>
        match buildGo fuel stop rb.2 with
        | .error e => .error e
        | .ok r => .ok (.sect k false rb.1 r.1, r.2)
    | .tag .caret k :: rest =>
      match buildGo fuel (some k) rest with
      | .error e => .error e
      | .ok rb =>
        match buildGo fuel stop rb.2 with
        | .error e => .error e
        | .ok r => .ok (.sect k true rb.1 r.1, r.2)
    | .tag .slash k :: rest =>
      match stop with
      | some k0 =>
        if k = k0 then .ok (.nil, rest)
        else .error (.unopenedSection k)
      | none => .error (.unopenedSection k)

/-- Parse a lexed template into a token tree. -/
def buildAst (items : List MItem) : Except MErr MAst :=
  match buildGo (items.length + 1) none items with
  | .error e => .error e
  | .ok r => .ok r.1

/-- A render-context value: the closed variant the configuration layer
supplies (string, boolean or number; numbers in the engine's contexts are
integers).  An absent key is modelled by a failed lookup. -/
inductive MValue where
  | str (s : List Char) : MValue
  | bool (b : Bool) : MValue
  | int (n : Int) : MValue
deriving DecidableEq

/-- First-match lookup in the context (a JavaScript object has one value
per key, so the association list is assumed duplicate-free by callers). -/
def ctxLookup : List (List Char × MValue) → List Char → Option MValue
  | [], _ => none
  | (k, v) :: rest, key => if k = key then some v else ctxLookup rest key

/-- JavaScript truthiness of a context value, exactly the `!value` test of
mustache.js `renderSection` / `renderInverted`: `false`, the empty string
and the number `0` are falsy; every other value of the closed variant is
truthy. -/
def jsTruthy : MValue → Bool
  | .str s => !s.isEmpty
  | .bool b => b
  | .int n => n != 0

/-- Truthiness of a key in a context: an absent key is falsy. -/
def lookupTruthy (ctx : List (List Char × MValue)) (k : List Char) : Bool :=
  match ctxLookup ctx k with
  | none => false
  | some v => jsTruthy v

/-- `String(value)` of JavaScript, applied by mustache.js before writing an
interpolated value. -/
def valueText : MValue → List Char
  | .str s => s
  | .bool b => if b then "true".data else "false".data
  | .int n => (toString n).data

/-- Render a token tree against a context, mirroring mustache.js
`renderTokens` on the modelled fragment with escaping given by `esc` (the
engine installs the identity before rendering, see below):

* text is emitted verbatim;
* an interpolation emits `esc (String(value))` for a present key and
  nothing for an absent one;
* a section body renders exactly when the key is truthy, an inverted
  section body exactly when it is falsy (`if (!value) return` /
  `renderInverted`).  A truthy primitive of the closed variant pushed onto
  the context stack introduces no usable simple keys, so the body renders
  against the same context; dotted names and String-prototype keys are
  outside the modelled fragment. -/
def renderAst (ctx : List (List Char × MValue)) (esc : List Char → List Char) :
    MAst → List Char
  | .nil => []
  | .text s rest => s ++ renderAst ctx esc rest
  | .var k rest =>
    (match ctxLookup ctx k with
     | none => []
     | some v => esc (valueText v)) ++ renderAst ctx esc rest
  | .sect k false body rest =>
    (if lookupTruthy ctx k then renderAst ctx esc body else []) ++
      renderAst ctx esc rest
  | .sect k true body rest =>
    (if lookupTruthy ctx k then [] else renderAst ctx esc body) ++
      renderAst ctx esc rest

/-- `mustache.render` on the modelled fragment: lex, nest, render. -/
def mustacheRender (template : List Char)
    (ctx : List (List Char × MValue)) (esc : List Char → List Char) :
    Except MErr (List Char) :=
  match lexTemplate template with
  | .error e => .error e
  | .ok items =>
    match buildAst items with
    | .error e => .error e
    | .ok ast => .ok (renderAst ctx esc ast)

/-- Fuelled splitting of a text on every occurrence of a (nonempty)
substring, the JavaScript `String.prototype.split` used during unmasking.
Fuel is always sufficient at the call site. -/
def splitSubGo (fuel : Nat) (t cs : List Char) : List (List Char) :=
  match fuel with
  | 0 => [cs]
  | fuel + 1 =>
    match splitOnFirst t cs with
    | none => [cs]
    | some (b, a) => b :: splitSubGo fuel t a

/-- Split a text on every occurrence of a substring. -/
def splitSub (t cs : List Char) : List (List Char) :=
  splitSubGo (cs.length + 1) t cs

/-- `Array.prototype.join` on texts. -/
def joinWith (sep : List Char) : List (List Char) → List Char
  | [] => []
  | [x] => x
  | x :: y :: rest => x ++ sep ++ joinWith sep (y :: rest)

/-- Restore the recorded spans in capture order, mirroring the
`ghExprs.forEach` loop at `src/core/fs.ts` lines 185-188: for each index
`i`, every occurrence of the `i`-th token in the rendered text is replaced
by the `i`-th recorded span via split/join. -/
def unmaskGo (exprs : List (List Char)) (i : Nat) (s : List Char) :
    List Char :=
  match exprs with
  | [] => s
  | e :: rest => unmaskGo rest (i + 1) (joinWith e (splitSub (ghToken i) s))

/-- Restore all recorded spans. -/
def unmaskGh (exprs : List (List Char)) (s : List Char) : List Char :=
  unmaskGo exprs 0 s

/-- The pure text pipeline applied to one marked file by
`renderMustacheTemplates` (`src/core/fs.ts`, lines 166-188): mask the
GitHub Actions spans, render the masked text with mustache (the engine
installs `esc` as the global escape — the identity, line 180 — for the
duration of the render), then restore the spans. -/
def renderTemplateText (raw : List Char) (ctx : List (List Char × MValue))
    (esc : List Char → List Char) : Except MErr (List Char) :=
  let m := maskGh raw
  match mustacheRender m.1 ctx esc with
  | .error e => .error e
  | .ok rendered => .ok (unmaskGh m.2 rendered)


-- ### Per-file state model of renderMustacheTemplates (C9, C10)

/-- Lookup in a flat path-to-content file map. -/
def fsLookup : List (List String × List Char) → List String →
    Option (List Char)
  | [], _ => none
  | (q, c) :: rest, p => if q = p then some c else fsLookup rest p

/-- Write (create or overwrite) a file in a flat file map. -/
def fsWrite : List (List String × List Char) → List String → List Char →
    List (List String × List Char)
  | [], p, c => [(p, c)]
  | (q, c0) :: rest, p, c =>
    if q = p then (q, c) :: rest else (q, c0) :: fsWrite rest p c

/-- Remove a file from a flat file map. -/
def fsRemove : List (List String × List Char) → List String →
    List (List String × List Char)
  | [], _ => []
  | (q, c) :: rest, p =>
    if q = p then fsRemove rest p else (q, c) :: fsRemove rest p

/-- The state visible to one marked-file step: the file map plus the global
`mustache.escape` function (a module-level mutable of the mustache
library). -/
structure RenderFsState where
  files : List (List String × List Char)
  escape : List Char → List Char

/-- Outcome of one marked-file step. -/
inductive RenderStepOutcome where
  | ok : RenderStepOutcome
  | readFailed : RenderStepOutcome
  | renderFailed (e : MErr) : RenderStepOutcome
  | writeFailed : RenderStepOutcome
deriving DecidableEq

/-- Observable file-system effects of one marked-file step, in order. -/
inductive FsEffect where
  | wrote (p : List String) (content : List Char) : FsEffect
  | removed (p : List String) : FsEffect
deriving DecidableEq

/-- One marked-file step of `renderMustacheTemplates` (`src/core/fs.ts`,
lines 165-200), with injectable read/write failures:

* line 166 reads the marked file; a failure there propagates before the
  escape function is touched;
* line 177 saves the previous global escape, line 180 installs the
  identity; the mustache render (through `renderTemplateText`) uses the
  installed escape;
* a render error restores the previous escape in the `finally` (line 198)
  and propagates, having performed no write and no delete;
* on success the rendered text is written to the destination (line 194)
  and only then is the original marked file removed (line 195); an
  injected write failure again restores the escape and leaves the file map
  untouched. -/
def processMarkedEntry (st : RenderFsState) (orig dest : List String)
    (ctx : List (List Char × MValue)) (failRead failWrite : Bool) :
    RenderFsState × RenderStepOutcome × List FsEffect :=
  match fsLookup st.files orig, failRead with
  | none, _ => (st, .readFailed, [])
  | some _, true => (st, .readFailed, [])
  | some raw, false =>
    let prev := st.escape
    let st1 : RenderFsState := { st with escape := fun s => s }
    match renderTemplateText raw ctx st1.escape with
    | .error e => ({ st1 with escape := prev }, .renderFailed e, [])
    | .ok rendered =>
      if failWrite then ({ st1 with escape := prev }, .writeFailed, [])
      else
        ({ files := fsRemove (fsWrite st1.files dest rendered) orig,
           escape := prev }, .ok,
         [.wrote dest rendered, .removed orig])

-- ### The remote template registry (C6, C7)

/-- First-match association lookup with string keys. -/
def assocLookup {α : Type} : List (String × α) → String → Option α
  | [], _ => none
  | (k, v) :: rest, key => if k = key then some v else assocLookup rest key

/-- Remove every binding of a key, modelling `Map.prototype.delete`. -/
def assocRemove {α : Type} : List (String × α) → String →
    List (String × α)
  | [], _ => []
  | (k, v) :: rest, key =>
    if k = key then assocRemove rest key else (k, v) :: assocRemove rest key

/-- One entry of a GitHub Contents API array response. -/
structure GhEntry where
  name : String
  etype : String
deriving DecidableEq

/-- Outcome of the `fetch` of the Contents URL as classified by
`listRemoteChildDirsViaAPI` (`src/core/cli-helper.ts`, lines 330-361):
the fetch threw (caught), a non-2xx status (including the definitive 404),
a JSON payload that is not an array, or an array of entries. -/
inductive ApiResult where
  | netThrow : ApiResult
  | httpError : ApiResult
  | nonArray : ApiResult
  | arr (entries : List GhEntry) : ApiResult
deriving DecidableEq

/-- The listing cache key built at line 335. -/
def listCacheKey (lang : String) (item : Option String)
    (includeShared : Bool) : String :=
  "agrawal-rohit/grimoire:templates/" ++ lang ++
    (match item with | some i => "/" ++ i | none => "") ++
    ":shared=" ++ (if includeShared then "true" else "false")

/-- Mirrors `listRemoteChildDirsViaAPI` (lines 330-361): a cache hit is
returned as-is; otherwise any fetch failure, bad status or non-array
payload yields `null`; an array is filtered to directory entries, mapped
to names, filtered of "shared" (case-insensitively) unless
`includeShared`, cached, and returned.  Returns the result and the
updated cache. -/
def listRemoteChildDirsViaAPI (cache : List (String × List String))
    (lang : String) (item : Option String) (includeShared : Bool)
    (api : ApiResult) :
    Option (List String) × List (String × List String) :=
  let key := listCacheKey lang item includeShared
  match assocLookup cache key with
  | some names => (some names, cache)
  | none =>
    match api with
    | .netThrow => (none, cache)
    | .httpError => (none, cache)
    | .nonArray => (none, cache)
    | .arr entries =>
      let names0 := (entries.filter (fun e => e.etype = "dir")).map
        (fun e => e.name)
      let names := if includeShared then names0
        else names0.filter (fun n => !(n.toLower == "shared"))
      (some names, (key, names) :: cache)

/-- The names of the directory entries of a listing, in order. -/
def childDirNames : FTree → List String
  | .nil => []
  | .file _ _ rest => childDirNames rest
  | .dir n _ rest => n :: childDirNames rest

/-- Mirrors `listChildDirs` (lines 176-188) on an existing directory. -/
def listChildDirs (t : FTree) (includeShared : Bool) : List String :=
  if includeShared then childDirNames t
  else (childDirNames t).filter (fun n => !(n.toLower == "shared"))

/-- Result of one remote `listAvailableTemplates` call: the returned
names, the updated listing cache, and whether the download fallback was
taken. -/
structure ListOutcome where
  names : List String
  cacheOut : List (String × List String)
  usedFallback : Bool
deriving DecidableEq

/-- Mirrors the remote branch of `listAvailableTemplates` (lines 401-430):
the cheap API listing is issued first; when it yields a nonempty name set
those names are returned with no fallback; when it fails (`null`) or
returns nothing, the resolver falls back to a full download of the subtree
followed by a local directory listing, and any failure of that fallback
(for example a definitively absent language, whose existence probe throws)
is caught and yields the empty set — never an exception.  `dl` is the
oracle for `downloadRemoteTemplatesSubdir`: the downloaded directory on
success, or an error when the download (or its existence probe) threw. -/
def listAvailableTemplatesRemote (cache : List (String × List String))
    (lang : String) (item : Option String) (includeShared : Bool)
    (api : ApiResult) (dl : Except Unit FTree) : ListOutcome :=
  let r := listRemoteChildDirsViaAPI cache lang item includeShared api
  match r.1 with
  | some names =>
    if names.length > 0 then ⟨names, r.2, false⟩
    else
      match dl with
      | .ok dir => ⟨listChildDirs dir includeShared, r.2, true⟩
      | .error _ => ⟨[], r.2, true⟩
  | none =>
    match dl with
    | .ok dir => ⟨listChildDirs dir includeShared, r.2, true⟩
    | .error _ => ⟨[], r.2, true⟩

/-- The resolver's mutable state (`src/core/cli-helper.ts`, lines 267-270):
the memoized spec-to-path cache and the in-flight promise map (promises
identified by numeric ids), plus a counter of download bodies started —
each started body performs at most one `downloadTemplate` call
(line 304). -/
structure RegState where
  pathCache : List (String × String)
  inFlightDownloads : List (String × Nat)
  nextId : Nat
  downloadsStarted : Nat
deriving DecidableEq

/-- What a `downloadRemoteTemplatesSubdir` call returns to its caller:
a memoized path, attachment to an existing in-flight promise, or a newly
started promise. -/
inductive StartResult where
  | cachedHit (p : String) : StartResult
  | attached (pid : Nat) : StartResult
  | started (pid : Nat) : StartResult
deriving DecidableEq

/-- The canonical coordinate string built by `buildGigetSpec`
(lines 207-210). -/
def buildGigetSpec (lang : String) (item : Option String) : String :=
  "github:agrawal-rohit/grimoire/templates/" ++ lang ++
    (match item with | some i => "/" ++ i | none => "")

/-- The synchronous prologue of `downloadRemoteTemplatesSubdir`
(lines 278-321): return the memoized path on a cache hit (line 285),
attach to an existing in-flight promise (lines 288-289), otherwise start
the async body and register it in the in-flight map (lines 291-320).
This prologue contains no await point, so on the single-threaded event
loop it executes atomically with respect to every other `resolve` call;
starting the body counts as the one underlying download invocation. -/
def startResolveRemote (st : RegState) (spec : String) :
    RegState × StartResult :=
  match assocLookup st.pathCache spec with
  | some p => (st, .cachedHit p)
  | none =>
    match assocLookup st.inFlightDownloads spec with
    | some pid => (st, .attached pid)
    | none =>
      ({ pathCache := st.pathCache,
         inFlightDownloads := (spec, st.nextId) :: st.inFlightDownloads,
         nextId := st.nextId + 1,
         downloadsStarted := st.downloadsStarted + 1 }, .started st.nextId)

/-- Completion of a started body: a successful download memoizes the
normalized path under the spec (line 306); the `finally` removes the
in-flight entry in success and failure alike (line 315). -/
def settleDownload (st : RegState) (spec : String) (outcome : Option String) :
    RegState :=
  let st1 := match outcome with
    | some p => { st with pathCache := (spec, p) :: st.pathCache }
    | none => st
  { st1 with inFlightDownloads := assocRemove st1.inFlightDownloads spec }


-- ### Basic lemmas about listings

theorem lookupEntry_setFileEntry (t : FTree) (m : String) (c : List Char)
    (n : String) :
    lookupEntry (setFileEntry t m c) n =
      if m = n then some (.file c) else lookupEntry t n := by
  induction t with
  | nil =>
    by_cases h : m = n <;> simp [setFileEntry, lookupEntry, h]
  | file n0 c0 rest ih =>
    by_cases h0 : n0 = m
    · subst h0
      by_cases h : n0 = n <;> simp [setFileEntry, lookupEntry, h]
    · by_cases h : n0 = n
      · have hmn : m ≠ n := fun hmn => h0 (h.trans hmn.symm)
        have hnm : n ≠ m := fun h' => h0 (h.trans h')
        simp [setFileEntry, lookupEntry, h0, h, hmn, hnm]
      · simp [setFileEntry, lookupEntry, h0, h, ih]
  | dir n0 ch rest ih1 ih2 =>
    by_cases h0 : n0 = m
    · subst h0
      by_cases h : n0 = n <;> simp [setFileEntry, lookupEntry, h]
    · by_cases h : n0 = n
      · have hmn : m ≠ n := fun hmn => h0 (h.trans hmn.symm)
        have hnm : n ≠ m := fun h' => h0 (h.trans h')
        simp [setFileEntry, lookupEntry, h0, h, hmn, hnm]
      · simp [setFileEntry, lookupEntry, h0, h, ih2]

theorem lookupEntry_setDirEntry (t : FTree) (m : String) (d : FTree)
    (n : String) :
    lookupEntry (setDirEntry t m d) n =
      if m = n then some (.dir d) else lookupEntry t n := by
  induction t with
  | nil =>
    by_cases h : m = n <;> simp [setDirEntry, lookupEntry, h]
  | file n0 c0 rest ih =>
    by_cases h0 : n0 = m
    · subst h0
      by_cases h : n0 = n <;> simp [setDirEntry, lookupEntry, h]
    · by_cases h : n0 = n
      · have hmn : m ≠ n := fun hmn => h0 (h.trans hmn.symm)
        have hnm : n ≠ m := fun h' => h0 (h.trans h')
        simp [setDirEntry, lookupEntry, h0, h, hmn, hnm]
      · simp [setDirEntry, lookupEntry, h0, h, ih]
  | dir n0 ch rest ih1 ih2 =>
    by_cases h0 : n0 = m
    · subst h0
      by_cases h : n0 = n <;> simp [setDirEntry, lookupEntry, h]
    · by_cases h : n0 = n
      · have hmn : m ≠ n := fun hmn => h0 (h.trans hmn.symm)
        have hnm : n ≠ m := fun h' => h0 (h.trans h')
        simp [setDirEntry, lookupEntry, h0, h, hmn, hnm]
      · simp [setDirEntry, lookupEntry, h0, h, ih2]

theorem lookupEntry_eq_none_of_not_mem (t : FTree) (n : String)
    (h : (entryNames t).contains n = false) : lookupEntry t n = none := by
  induction t with
  | nil => simp [lookupEntry]
  | file n0 c rest ih =>
    simp [entryNames, List.contains_cons] at h
    have h1 : n0 ≠ n := fun h' => h.1 h'.symm
    simp [lookupEntry, h1, ih (by simpa using h.2)]
  | dir n0 ch rest ih1 ih2 =>
    simp [entryNames, List.contains_cons] at h
    have h1 : n0 ≠ n := fun h' => h.1 h'.symm
    simp [lookupEntry, h1, ih2 (by simpa using h.2)]

theorem lookupPath_nil (p : List String) (hp : p ≠ []) :
    lookupPath .nil p = none := by
  match p with
  | [n] => simp [lookupPath, lookupEntry]
  | n :: m :: rest => simp [lookupPath, lookupEntry]

-- ### Per-level lemmas about copying

theorem copy_frame_entry (src : FTree) (dest out : FTree) (n : String)
    (hcopy : copyTree src dest = .ok out)
    (hnone : lookupEntry src n = none) :
    lookupEntry out n = lookupEntry dest n := by
  induction src generalizing dest with
  | nil =>
    simp [copyTree] at hcopy
    subst hcopy; rfl
  | file m c rest ih =>
    by_cases hm : m = n
    · simp [lookupEntry, hm] at hnone
    · simp [lookupEntry, hm] at hnone
      cases hd : lookupEntry dest m with
      | none =>
        simp [copyTree, hd] at hcopy
        rw [ih _ hcopy hnone, lookupEntry_setFileEntry]
        simp [hm]
      | some e =>
        cases e with
        | file c0 =>
          simp [copyTree, hd] at hcopy
          rw [ih _ hcopy hnone, lookupEntry_setFileEntry]
          simp [hm]
        | dir d => simp [copyTree, hd] at hcopy
  | dir m sub rest ih1 ih2 =>
    by_cases hm : m = n
    · simp [lookupEntry, hm] at hnone
    · simp [lookupEntry, hm] at hnone
      cases hd : lookupEntry dest m with
      | none =>
        cases hsub : copyTree sub .nil with
        | error e => simp [copyTree, hd, hsub] at hcopy
        | ok d2 =>
          simp [copyTree, hd, hsub] at hcopy
          rw [ih2 _ hcopy hnone, lookupEntry_setDirEntry]
          simp [hm]
      | some e =>
        cases e with
        | file c0 => simp [copyTree, hd] at hcopy
        | dir d =>
          cases hsub : copyTree sub d with
          | error e => simp [copyTree, hd, hsub] at hcopy
          | ok d2 =>
            simp [copyTree, hd, hsub] at hcopy
            rw [ih2 _ hcopy hnone, lookupEntry_setDirEntry]
            simp [hm]

theorem copy_entry_file (src : FTree) (dest out : FTree) (n : String)
    (c : List Char)
    (hnd : nodups src = true)
    (hcopy : copyTree src dest = .ok out)
    (hsrc : lookupEntry src n = some (.file c)) :
    lookupEntry out n = some (.file c) ∧
      ∀ d, lookupEntry dest n ≠ some (.dir d) := by
  induction src generalizing dest with
  | nil => simp [lookupEntry] at hsrc
  | file m c0 rest ih =>
    simp [nodups, Bool.and_eq_true] at hnd
    by_cases hm : m = n
    · subst hm
      simp [lookupEntry] at hsrc
      subst hsrc
      cases hd : lookupEntry dest m with
      | none =>
        simp [copyTree, hd] at hcopy
        have hrest : lookupEntry rest m = none :=
          lookupEntry_eq_none_of_not_mem _ _ (by simpa using hnd.1)
        rw [copy_frame_entry rest _ out m hcopy hrest,
          lookupEntry_setFileEntry]
        simp [hd]
      | some e =>
        cases e with
        | file c1 =>
          simp [copyTree, hd] at hcopy
          have hrest : lookupEntry rest m = none :=
            lookupEntry_eq_none_of_not_mem _ _ (by simpa using hnd.1)
          rw [copy_frame_entry rest _ out m hcopy hrest,
            lookupEntry_setFileEntry]
          simp [hd]
        | dir d => simp [copyTree, hd] at hcopy
    · simp [lookupEntry, hm] at hsrc
      cases hd : lookupEntry dest m with
      | none =>
        simp [copyTree, hd] at hcopy
        have h2 := ih _ hnd.2 hcopy hsrc
        refine ⟨h2.1, ?_⟩
        intro d hdd
        exact h2.2 d (by rw [lookupEntry_setFileEntry]; simp [hm, hdd])
      | some e =>
        cases e with
        | file c1 =>
          simp [copyTree, hd] at hcopy
          have h2 := ih _ hnd.2 hcopy hsrc
          refine ⟨h2.1, ?_⟩
          intro d hdd
          exact h2.2 d (by rw [lookupEntry_setFileEntry]; simp [hm, hdd])
        | dir d => simp [copyTree, hd] at hcopy
  | dir m sub rest ih1 ih2 =>
    simp [nodups, Bool.and_eq_true] at hnd
    by_cases hm : m = n
    · simp [lookupEntry, hm] at hsrc
    · simp [lookupEntry, hm] at hsrc
      cases hd : lookupEntry dest m with
      | none =>
        cases hsub : copyTree sub .nil with
        | error e => simp [copyTree, hd, hsub] at hcopy
        | ok d2 =>
          simp [copyTree, hd, hsub] at hcopy
          have h2 := ih2 _ hnd.2 hcopy hsrc
          refine ⟨h2.1, ?_⟩
          intro d hdd
          exact h2.2 d (by rw [lookupEntry_setDirEntry]; simp [hm, hdd])
      | some e =>
        cases e with
        | file c1 => simp [copyTree, hd] at hcopy
        | dir d0 =>
          cases hsub : copyTree sub d0 with
          | error e => simp [copyTree, hd, hsub] at hcopy
          | ok d2 =>
            simp [copyTree, hd, hsub] at hcopy
            have h2 := ih2 _ hnd.2 hcopy hsrc
            refine ⟨h2.1, ?_⟩
            intro d hdd
            exact h2.2 d (by rw [lookupEntry_setDirEntry]; simp [hm, hdd])

theorem nodups_of_lookup_dir (src : FTree) (n : String) (d : FTree)
    (hnd : nodups src = true) (h : lookupEntry src n = some (.dir d)) :
    nodups d = true := by
  induction src with
  | nil => simp [lookupEntry] at h
  | file m c rest ih =>
    simp [nodups, Bool.and_eq_true] at hnd
    by_cases hm : m = n
    · simp [lookupEntry, hm] at h
    · simp [lookupEntry, hm] at h
      exact ih hnd.2 h
  | dir m sub rest ih1 ih2 =>
    simp [nodups, Bool.and_eq_true] at hnd
    by_cases hm : m = n
    · simp [lookupEntry, hm] at h
      rw [← h]
      exact hnd.1.2
    · simp [lookupEntry, hm] at h
      exact ih2 hnd.2 h

theorem copy_entry_dir (src : FTree) (dest out : FTree) (n : String)
    (d : FTree)
    (hnd : nodups src = true)
    (hcopy : copyTree src dest = .ok out)
    (hsrc : lookupEntry src n = some (.dir d)) :
    ∃ d0 d2, lookupEntry out n = some (.dir d2) ∧ copyTree d d0 = .ok d2 ∧
      (lookupEntry dest n = some (.dir d0) ∨
        (lookupEntry dest n = none ∧ d0 = .nil)) := by
  induction src generalizing dest with
  | nil => simp [lookupEntry] at hsrc
  | file m c0 rest ih =>
    simp [nodups, Bool.and_eq_true] at hnd
    by_cases hm : m = n
    · simp [lookupEntry, hm] at hsrc
    · simp [lookupEntry, hm] at hsrc
      cases hd : lookupEntry dest m with
      | none =>
        simp [copyTree, hd] at hcopy
        obtain ⟨d0, d2, h1, h2, h3⟩ := ih _ hnd.2 hcopy hsrc
        refine ⟨d0, d2, h1, h2, ?_⟩
        rwa [lookupEntry_setFileEntry, if_neg hm] at h3
      | some e =>
        cases e with
        | file c1 =>
          simp [copyTree, hd] at hcopy
          obtain ⟨d0, d2, h1, h2, h3⟩ := ih _ hnd.2 hcopy hsrc
          refine ⟨d0, d2, h1, h2, ?_⟩
          rwa [lookupEntry_setFileEntry, if_neg hm] at h3
        | dir dd => simp [copyTree, hd] at hcopy
  | dir m sub rest ih1 ih2 =>
    simp [nodups, Bool.and_eq_true] at hnd
    by_cases hm : m = n
    · subst hm
      simp [lookupEntry] at hsrc
      subst hsrc
      cases hd : lookupEntry dest m with
      | none =>
        cases hsub : copyTree sub .nil with
        | error e => simp [copyTree, hd, hsub] at hcopy
        | ok d2 =>
          simp [copyTree, hd, hsub] at hcopy
          have hrest : lookupEntry rest m = none :=
            lookupEntry_eq_none_of_not_mem _ _ (by simpa using hnd.1.1)
          refine ⟨.nil, d2, ?_, hsub, Or.inr ⟨rfl, rfl⟩⟩
          rw [copy_frame_entry rest _ out m hcopy hrest,
            lookupEntry_setDirEntry]
          simp
      | some e =>
        cases e with
        | file c1 => simp [copyTree, hd] at hcopy
        | dir d0 =>
          cases hsub : copyTree sub d0 with
          | error e => simp [copyTree, hd, hsub] at hcopy
          | ok d2 =>
            simp [copyTree, hd, hsub] at hcopy
            have hrest : lookupEntry rest m = none :=
              lookupEntry_eq_none_of_not_mem _ _ (by simpa using hnd.1.1)
            refine ⟨d0, d2, ?_, hsub, Or.inl rfl⟩
            rw [copy_frame_entry rest _ out m hcopy hrest,
              lookupEntry_setDirEntry]
            simp
    · simp [lookupEntry, hm] at hsrc
      cases hd : lookupEntry dest m with
      | none =>
        cases hsub : copyTree sub .nil with
        | error e => simp [copyTree, hd, hsub] at hcopy
        | ok d2 =>
          simp [copyTree, hd, hsub] at hcopy
          obtain ⟨d0, d2', h1, h2, h3⟩ := ih2 _ hnd.2 hcopy hsrc
          refine ⟨d0, d2', h1, h2, ?_⟩
          rwa [lookupEntry_setDirEntry, if_neg hm] at h3
      | some e =>
        cases e with
        | file c1 => simp [copyTree, hd] at hcopy
        | dir dd =>
          cases hsub : copyTree sub dd with
          | error e => simp [copyTree, hd, hsub] at hcopy
          | ok d2 =>
            simp [copyTree, hd, hsub] at hcopy
            obtain ⟨d0, d2', h1, h2, h3⟩ := ih2 _ hnd.2 hcopy hsrc
            refine ⟨d0, d2', h1, h2, ?_⟩
            rwa [lookupEntry_setDirEntry, if_neg hm] at h3

-- ### Path-level lemmas about copying

theorem copy_path_file (p : List String) (src dest out : FTree)
    (c : List Char) (hp : p ≠ [])
    (hnd : nodups src = true)
    (hcopy : copyTree src dest = .ok out)
    (hsrc : lookupPath src p = some (.file c)) :
    lookupPath out p = some (.file c) := by
  induction p generalizing src dest out with
  | nil => exact absurd rfl hp
  | cons n rest ih =>
    cases rest with
    | nil =>
      simp only [lookupPath] at hsrc ⊢
      exact (copy_entry_file src dest out n c hnd hcopy hsrc).1
    | cons m rs =>
      cases hd : lookupEntry src n with
      | none => simp [lookupPath, hd] at hsrc
      | some e =>
        cases e with
        | file c0 => simp [lookupPath, hd] at hsrc
        | dir d =>
          simp only [lookupPath, hd] at hsrc
          obtain ⟨d0, d2, h1, h2, h3⟩ :=
            copy_entry_dir src dest out n d hnd hcopy hd
          have hndd := nodups_of_lookup_dir src n d hnd hd
          have hres := ih _ _ _ (by simp) hndd h2 hsrc
          simp [lookupPath, h1, hres]

theorem copy_path_frame (p : List String) (src dest out : FTree)
    (hp : p ≠ [])
    (hnd : nodups src = true)
    (hcopy : copyTree src dest = .ok out)
    (hsrc : lookupPath src p = none) :
    lookupPath out p = lookupPath dest p := by
  induction p generalizing src dest out with
  | nil => exact absurd rfl hp
  | cons n rest ih =>
    cases rest with
    | nil =>
      simp only [lookupPath] at hsrc ⊢
      rw [copy_frame_entry src dest out n hcopy hsrc]
    | cons m rs =>
      cases hd : lookupEntry src n with
      | none =>
        have hfr := copy_frame_entry src dest out n hcopy hd
        simp [lookupPath, hfr]
      | some e =>
        cases e with
        | file c0 =>
          have h2 := copy_entry_file src dest out n c0 hnd hcopy hd
          cases hdd : lookupEntry dest n with
          | none => simp [lookupPath, h2.1, hdd]
          | some e2 =>
            cases e2 with
            | file c1 => simp [lookupPath, h2.1, hdd]
            | dir dd => exact absurd hdd (h2.2 dd)
        | dir d =>
          simp only [lookupPath, hd] at hsrc
          obtain ⟨d0, d2, h1, h2, h3⟩ :=
            copy_entry_dir src dest out n d hnd hcopy hd
          have hndd := nodups_of_lookup_dir src n d hnd hd
          have heq := ih _ _ _ (by simp) hndd h2 hsrc
          cases h3 with
          | inl h3 => simp [lookupPath, h1, h3, heq]
          | inr h3 =>
            have hnil : lookupPath d0 (m :: rs) = none := by
              rw [h3.2]; exact lookupPath_nil _ (by simp)
            simp [lookupPath, h1, h3.1, heq, hnil]

-- ### Composition lemmas

theorem composeLayers_append (xs ys : List FTree) (t : FTree) :
    composeLayers (xs ++ ys) t =
      match composeLayers xs t with
      | .error e => .error e
      | .ok t2 => composeLayers ys t2 := by
  induction xs generalizing t with
  | nil => simp [composeLayers]
  | cons l ls ih =>
    simp only [List.cons_append, composeLayers]
    cases copyTree l t with
    | error e => rfl
    | ok t2 => exact ih t2

theorem compose_preserves_path (ls : List FTree) (t tOut : FTree)
    (p : List String) (hp : p ≠ [])
    (hcomp : composeLayers ls t = .ok tOut)
    (hnd : ∀ m ∈ ls, nodups m = true)
    (hnone : ∀ m ∈ ls, lookupPath m p = none) :
    lookupPath tOut p = lookupPath t p := by
  induction ls generalizing t with
  | nil =>
    simp [composeLayers] at hcomp
    subst hcomp; rfl
  | cons l ms ih =>
    cases hc : copyTree l t with
    | error e => simp [composeLayers, hc] at hcomp
    | ok t2 =>
      simp only [composeLayers, hc] at hcomp
      have h1 := ih t2 hcomp (fun m hm => hnd m (by simp [hm]))
        (fun m hm => hnone m (by simp [hm]))
      rw [h1]
      exact copy_path_frame p l t t2 hp (hnd l (by simp)) hc
        (hnone l (by simp))

theorem compose_layer_wins (l : FTree) (post : List FTree) (t0 tOut : FTree)
    (p : List String) (c : List Char) (hp : p ≠ [])
    (hcomp : composeLayers (l :: post) t0 = .ok tOut)
    (hndl : nodups l = true)
    (hndpost : ∀ m ∈ post, nodups m = true)
    (hl : lookupPath l p = some (.file c))
    (hpost : ∀ m ∈ post, lookupPath m p = none) :
    lookupPath tOut p = some (.file c) := by
  cases hc : copyTree l t0 with
  | error e => simp [composeLayers, hc] at hcomp
  | ok t1 =>
    simp only [composeLayers, hc] at hcomp
    have h1 := copy_path_file p l t0 t1 c hp hndl hc hl
    rw [compose_preserves_path post t1 tOut p hp hcomp hndpost hpost]
    exact h1

-- ### Pruning lemmas

theorem lookupEntry_removeMatching (pred : String → Bool) (t : FTree)
    (n : String) :
    lookupEntry (removeMatching pred t) n =
      if pred n = true then none
      else
        match lookupEntry t n with
        | some (.file c) => some (.file c)
        | some (.dir d) => some (.dir (removeMatching pred d))
        | none => none := by
  induction t with
  | nil =>
    cases hpn : pred n <;> simp [removeMatching, lookupEntry, hpn]
  | file m c rest ih =>
    by_cases hmn : m = n
    · subst hmn
      cases hpm : pred m <;>
        simp [removeMatching, lookupEntry, hpm, ih]
    · cases hpm : pred m <;>
        simp [removeMatching, lookupEntry, hpm, hmn, ih]
  | dir m sub rest ih1 ih2 =>
    by_cases hmn : m = n
    · subst hmn
      cases hpm : pred m <;>
        simp [removeMatching, lookupEntry, hpm, ih2]
    · cases hpm : pred m <;>
        simp [removeMatching, lookupEntry, hpm, hmn, ih2]

theorem removeMatching_path_survivor (pred : String → Bool)
    (p : List String) (t : FTree) (e : FEntry)
    (h : lookupPath (removeMatching pred t) p = some e) :
    ∀ n ∈ p, pred n = false := by
  induction p generalizing t e with
  | nil => intro n hn; cases hn
  | cons n rest ih =>
    cases rest with
    | nil =>
      intro m hm
      simp only [List.mem_singleton] at hm
      subst hm
      simp only [lookupPath] at h
      rw [lookupEntry_removeMatching] at h
      by_cases hpn : pred m = true
      · rw [if_pos hpn] at h; cases h
      · simpa using hpn
    | cons m2 rs =>
      have hstep : ∃ d, lookupEntry (removeMatching pred t) n =
          some (.dir d) ∧ lookupPath d (m2 :: rs) = some e := by
        cases hd : lookupEntry (removeMatching pred t) n with
        | none => simp [lookupPath, hd] at h
        | some e2 =>
          cases e2 with
          | file c0 => simp [lookupPath, hd] at h
          | dir d =>
            refine ⟨d, rfl, ?_⟩
            simpa [lookupPath, hd] using h
      obtain ⟨d, hd, hrest⟩ := hstep
      rw [lookupEntry_removeMatching] at hd
      by_cases hpn : pred n = true
      · rw [if_pos hpn] at hd; cases hd
      · rw [if_neg hpn] at hd
        cases hdt : lookupEntry t n with
        | none => rw [hdt] at hd; cases hd
        | some e3 =>
          cases e3 with
          | file c0 => rw [hdt] at hd; cases hd
          | dir d0 =>
            rw [hdt] at hd
            have hdd : d = removeMatching pred d0 := by
              cases hd; rfl
            subst hdd
            intro m hm
            rcases List.mem_cons.mp hm with hm | hm
            · subst hm; simpa using hpn
            · exact ih d0 e hrest m hm

theorem removeMatching_path_preserved (pred : String → Bool)
    (p : List String) (t : FTree) (c : List Char)
    (hclean : ∀ n ∈ p, pred n = false)
    (h : lookupPath t p = some (.file c)) :
    lookupPath (removeMatching pred t) p = some (.file c) := by
  induction p generalizing t with
  | nil => simp [lookupPath] at h
  | cons n rest ih =>
    have hpn : pred n = false := hclean n (by simp)
    cases rest with
    | nil =>
      simp only [lookupPath] at h ⊢
      rw [lookupEntry_removeMatching, if_neg (by simp [hpn]), h]
    | cons m2 rs =>
      cases hd : lookupEntry t n with
      | none => simp [lookupPath, hd] at h
      | some e2 =>
        cases e2 with
        | file c0 => simp [lookupPath, hd] at h
        | dir d =>
          simp only [lookupPath, hd] at h
          have hout : lookupEntry (removeMatching pred t) n =
              some (.dir (removeMatching pred d)) := by
            rw [lookupEntry_removeMatching, if_neg (by simp [hpn]), hd]
          have hrec := ih d (fun m hm => hclean m (by simp [hm])) h
          simp [lookupPath, hout, hrec]

-- ### Claim C1: override law for layered composition

/-- C1: in a layer plan applied by `composeLayers` in ascending precedence
order, when two layers provide a regular file at the same relative path with
distinct contents the composed file's content equals the later
(higher-precedence) layer's content exactly (first conjunct), and a file
contributed only by an earlier layer — no later layer provides that path —
remains present with its content intact (second conjunct).  Layers are
well-formed directory listings (distinct entry names). -/
theorem c1_override_law :
    (∀ (pre : List FTree) (lj : FTree) (post : List FTree) (t0 tOut : FTree)
      (p : List String) (li : FTree) (c1 c2 : List Char),
      composeLayers (pre ++ lj :: post) t0 = .ok tOut →
      nodups lj = true →
      (∀ m ∈ post, nodups m = true) →
      li ∈ pre →
      lookupPath li p = some (.file c1) →
      lookupPath lj p = some (.file c2) →
      c1 ≠ c2 →
      (∀ m ∈ post, lookupPath m p = none) →
      p ≠ [] →
      lookupPath tOut p = some (.file c2)) ∧
    (∀ (pre : List FTree) (li : FTree) (post : List FTree) (t0 tOut : FTree)
      (q : List String) (c : List Char),
      composeLayers (pre ++ li :: post) t0 = .ok tOut →
      nodups li = true →
      (∀ m ∈ post, nodups m = true) →
      lookupPath li q = some (.file c) →
      (∀ m ∈ post, lookupPath m q = none) →
      q ≠ [] →
      lookupPath tOut q = some (.file c)) := by
  constructor
  · intro pre lj post t0 tOut p li c1 c2 hcomp hndl hndpost hli hlip hljp
      hne hpost hp
    have hsplit := composeLayers_append pre (lj :: post) t0
    cases hpre : composeLayers pre t0 with
    | error e =>
      rw [hpre] at hsplit
      rw [hcomp] at hsplit
      cases hsplit
    | ok t1 =>
      rw [hpre] at hsplit
      rw [hcomp] at hsplit
      exact compose_layer_wins lj post t1 tOut p c2 hp hsplit.symm hndl
        hndpost hljp hpost
  · intro pre li post t0 tOut q c hcomp hndl hndpost hliq hpost hq
    have hsplit := composeLayers_append pre (li :: post) t0
    cases hpre : composeLayers pre t0 with
    | error e =>
      rw [hpre] at hsplit
      rw [hcomp] at hsplit
      cases hsplit
    | ok t1 =>
      rw [hpre] at hsplit
      rw [hcomp] at hsplit
      exact compose_layer_wins li post t1 tOut q c hq hsplit.symm hndl
        hndpost hliq hpost

/-- Witness for C1 at a concrete two-layer plan: both layers provide file
`f` with distinct contents; the composed content is the later layer's. -/
theorem c1_override_law_witness :
    lookupPath (FTree.file "f" ['2'] FTree.nil) ["f"] =
      some (.file ['2']) :=
  c1_override_law.1 [FTree.file "f" ['1'] FTree.nil]
    (FTree.file "f" ['2'] FTree.nil) [] FTree.nil
    (FTree.file "f" ['2'] FTree.nil) ["f"]
    (FTree.file "f" ['1'] FTree.nil) ['1'] ['2']
    rfl (by decide) (fun m hm => by cases hm) (by decide)
    (by decide) (by decide) (by decide) (fun m hm => by cases hm)
    (by decide)

-- ### Claim C5: missing-layer tolerance

/-- C5: `writeStarterTemplate` treats a `NotFound` resolution of an
optional shared layer as a no-op (the `try/catch` around each shared
layer), still applies all remaining layers, and raises nothing; a failed
resolution of the caller's explicitly chosen top-precedence template layer
propagates as an error.  The first conjunct skips the missing middle
(language-shared) layer and applies the rest; the second and third do the
same for the first and third optional layers; the last conjunct shows a
failure of the chosen template layer always propagates. -/
theorem c5_missing_layer_tolerance :
    (∀ (t0 d1 d3 dT t1 t3 t4 : FTree),
      copyTree d1 t0 = .ok t1 → copyTree d3 t1 = .ok t3 →
      copyTree dT t3 = .ok t4 →
      writeStarterTemplate t0 (.ok d1) (.error ()) (.ok d3) (.ok dT) =
        .ok t4) ∧
    (∀ (t0 d2 d3 dT t2 t3 t4 : FTree),
      copyTree d2 t0 = .ok t2 → copyTree d3 t2 = .ok t3 →
      copyTree dT t3 = .ok t4 →
      writeStarterTemplate t0 (.error ()) (.ok d2) (.ok d3) (.ok dT) =
        .ok t4) ∧
    (∀ (t0 d1 d2 dT t1 t2 t4 : FTree),
      copyTree d1 t0 = .ok t1 → copyTree d2 t1 = .ok t2 →
      copyTree dT t2 = .ok t4 →
      writeStarterTemplate t0 (.ok d1) (.ok d2) (.error ()) (.ok dT) =
        .ok t4) ∧
    (∀ (t0 : FTree) (r1 r2 r3 : Except Unit FTree),
      writeStarterTemplate t0 r1 r2 r3 (.error ()) = .error ()) := by
  refine ⟨?_, ?_, ?_, ?_⟩
  · intro t0 d1 d3 dT t1 t3 t4 h1 h3 hT
    simp [writeStarterTemplate, applyOptionalLayer, h1, h3, hT]
  · intro t0 d2 d3 dT t2 t3 t4 h2 h3 hT
    simp [writeStarterTemplate, applyOptionalLayer, h2, h3, hT]
  · intro t0 d1 d2 dT t1 t2 t4 h1 h2 hT
    simp [writeStarterTemplate, applyOptionalLayer, h1, h2, hT]
  · intro t0 r1 r2 r3
    simp [writeStarterTemplate]

/-- Witness for C5: with the language-shared layer missing, the remaining
three layers are still applied and nothing is raised. -/
theorem c5_missing_layer_tolerance_witness :
    writeStarterTemplate FTree.nil (.ok (FTree.file "a" ['1'] FTree.nil))
      (.error ()) (.ok (FTree.file "b" ['2'] FTree.nil))
      (.ok (FTree.file "c" ['3'] FTree.nil)) =
    .ok (FTree.file "a" ['1'] (FTree.file "b" ['2']
      (FTree.file "c" ['3'] FTree.nil))) :=
  c5_missing_layer_tolerance.1 FTree.nil
    (FTree.file "a" ['1'] FTree.nil) (FTree.file "b" ['2'] FTree.nil)
    (FTree.file "c" ['3'] FTree.nil)
    (FTree.file "a" ['1'] FTree.nil)
    (FTree.file "a" ['1'] (FTree.file "b" ['2'] FTree.nil))
    (FTree.file "a" ['1'] (FTree.file "b" ['2']
      (FTree.file "c" ['3'] FTree.nil)))
    rfl rfl rfl

-- ### Claim C8: basename pruning

/-- C8: `removeFilesByBasename` deletes every entry at any depth whose
basename is in the set — in particular, every surviving path has no
component in the set (first conjunct); entries whose path never meets the
set survive unchanged (second conjunct); a missing root directory is a
no-op, not an error (third conjunct); and a matching directory is removed
wholesale in one step, without the traversal ever depending on — or
descending into — its contents (fourth conjunct: the result is independent
of the matched directory's subtree). -/
theorem c8_prune_by_basename :
    ∀ (names : List String),
    (∀ (t : FTree) (p : List String) (e : FEntry),
      lookupPath (removeMatching (fun n => names.contains n) t) p =
        some e →
      ∀ n ∈ p, names.contains n = false) ∧
    (∀ (t : FTree) (p : List String) (c : List Char),
      (∀ n ∈ p, names.contains n = false) →
      lookupPath t p = some (.file c) →
      lookupPath (removeMatching (fun n => names.contains n) t) p =
        some (.file c)) ∧
    (removeFilesByBasename names none = none) ∧
    (∀ (n : String) (sub rest : FTree), names.contains n = true →
      removeMatching (fun m => names.contains m) (.dir n sub rest) =
        removeMatching (fun m => names.contains m) rest) := by
  intro names
  refine ⟨?_, ?_, rfl, ?_⟩
  · intro t p e h
    exact removeMatching_path_survivor _ p t e h
  · intro t p c hclean h
    exact removeMatching_path_preserved _ p t c hclean h
  · intro n sub rest hn
    simp only [removeMatching]
    rw [if_pos hn]

/-- Witness for C8: pruning `["node_modules"]` from a tree with a matching
directory three levels deep preserves an unrelated file. -/
theorem c8_prune_by_basename_witness :
    lookupPath
      (removeMatching (fun n => ["node_modules"].contains n)
        (FTree.dir "a" (FTree.dir "b"
          (FTree.dir "node_modules" (FTree.file "x" ['9'] FTree.nil)
            (FTree.file "keep" ['7'] FTree.nil)) FTree.nil) FTree.nil))
      ["a", "b", "keep"] = some (.file ['7']) :=
  (c8_prune_by_basename ["node_modules"]).2.1
    (FTree.dir "a" (FTree.dir "b"
      (FTree.dir "node_modules" (FTree.file "x" ['9'] FTree.nil)
        (FTree.file "keep" ['7'] FTree.nil)) FTree.nil) FTree.nil)
    ["a", "b", "keep"] ['7'] (by decide) (by decide)

-- ### Lemmas about splitting and masking

theorem splitOnFirst_decomp (pat cs b a : List Char)
    (h : splitOnFirst pat cs = some (b, a)) : b ++ pat ++ a = cs := by
  induction cs generalizing b a with
  | nil =>
    by_cases hp : pat.isEmpty
    · rw [splitOnFirst, if_pos hp] at h
      cases h
      simpa using List.isEmpty_iff.mp hp
    · rw [splitOnFirst, if_neg hp] at h
      cases h
  | cons c rest ih =>
    by_cases hp : pat.isPrefixOf (c :: rest)
    · rw [splitOnFirst, if_pos hp] at h
      cases h
      obtain ⟨u, hu⟩ := List.isPrefixOf_iff_prefix.mp hp
      simp only [List.nil_append]
      rw [← hu, List.drop_left]
    · rw [splitOnFirst, if_neg hp] at h
      cases hs : splitOnFirst pat rest with
      | none => rw [hs] at h; cases h
      | some r =>
        obtain ⟨b0, a0⟩ := r
        rw [hs] at h
        cases h
        simpa [List.append_assoc] using ih b0 a hs

theorem splitOnFirst_some_of_infix (pat cs : List Char) (hne : pat ≠ [])
    (h : pat <:+: cs) : ∃ b a, splitOnFirst pat cs = some (b, a) := by
  induction cs with
  | nil =>
    obtain ⟨s, t, hst⟩ := h
    simp only [List.append_eq_nil] at hst
    exact absurd hst.1.2 hne
  | cons c rest ih =>
    by_cases hp : pat.isPrefixOf (c :: rest)
    · exact ⟨[], _, by rw [splitOnFirst, if_pos hp]⟩
    · have hrest : pat <:+: rest := by
        obtain ⟨s, t, hst⟩ := h
        cases s with
        | nil =>
          exfalso
          apply hp
          rw [List.isPrefixOf_iff_prefix]
          exact ⟨t, by simpa using hst⟩
        | cons s0 srest =>
          refine ⟨srest, t, ?_⟩
          simp only [List.cons_append] at hst
          injection hst with h1 h2
      obtain ⟨b, a, hba⟩ := ih hrest
      exact ⟨c :: b, a, by rw [splitOnFirst, if_neg hp, hba]⟩

theorem splitSubGo_ne_nil (fuel : Nat) (t cs : List Char) :
    splitSubGo fuel t cs ≠ [] := by
  cases fuel with
  | zero => simp [splitSubGo]
  | succ f =>
    simp only [splitSubGo]
    cases splitOnFirst t cs with
    | none => simp
    | some r => simp

theorem infix_joinWith_splitSub (t s e : List Char) (hne : t ≠ [])
    (hinf : t <:+: s) : e <:+: joinWith e (splitSub t s) := by
  obtain ⟨b, a, hba⟩ := splitOnFirst_some_of_infix t s hne hinf
  have hsplit : splitSub t s = b :: splitSubGo s.length t a := by
    rw [splitSub]
    simp only [splitSubGo]
    rw [hba]
  rw [hsplit]
  cases hgo : splitSubGo s.length t a with
  | nil => exact absurd hgo (splitSubGo_ne_nil _ _ _)
  | cons x xs =>
    exact ⟨b, joinWith e (x :: xs), rfl⟩

theorem maskGh_no_close (cs : List Char)
    (h : ¬ (ghClose <:+: cs)) : maskGh cs = (cs, []) := by
  rw [maskGh]
  simp only [maskGo]
  cases ho : splitOnFirst ghOpen cs with
  | none => simp [ho]
  | some r =>
    obtain ⟨b, rest1⟩ := r
    cases hc : splitOnFirst ghClose rest1 with
    | none => simp [ho, hc]
    | some r2 =>
      exfalso
      apply h
      obtain ⟨bc, ac⟩ := r2
      have h1 := splitOnFirst_decomp ghOpen cs b rest1 ho
      have h2 := splitOnFirst_decomp ghClose rest1 bc ac hc
      refine ⟨b ++ ghOpen ++ bc, ac, ?_⟩
      rw [← h1, ← h2]
      simp [List.append_assoc]

theorem infix_append_right_right (l A B C : List Char) (h : l <:+: C) :
    l <:+: A ++ (B ++ C) :=
  h.trans ((List.suffix_append B C).trans
    (List.suffix_append A (B ++ C))).isInfix

-- ### Claim C2: foreign-expression preservation

/-- C2 counterexample: the claim quantifies over *every* marked file whose
text contains a `$\x7b\x7b ... \x7d\x7d` span, but a span lying inside a
truthy-gated block whose key is falsy is dropped together with the block:
the fixture `\x7b\x7b#k\x7d\x7d$\x7b\x7b secrets.FOO \x7d\x7d\x7b\x7b/k\x7d\x7d`
with an empty context renders to the empty output, which does not contain
the span. -/
theorem c2_counterexample_span_in_falsy_block :
    renderTemplateText
      "\x7b\x7b#k\x7d\x7d$\x7b\x7b secrets.FOO \x7d\x7d\x7b\x7b/k\x7d\x7d".data
      [] (fun s => s) = .ok [] ∧
    ¬ ("$\x7b\x7b secrets.FOO \x7d\x7d".data <:+: ([] : List Char)) := by
  refine ⟨rfl, ?_⟩
  decide

/-- C2 (amended): foreign-expression spans are preserved byte-exactly, in
capture order, provided the span lies in text retained by the conditional
block structure; in particular, for *every* render context the marked
fixture `Hello \x7b\x7bname\x7d\x7d! $\x7b\x7b secrets.FOO \x7d\x7d bye` —
whose surrounding text is interpolated — renders successfully to an output
containing the literal span `$\x7b\x7b secrets.FOO \x7d\x7d` unchanged. -/
theorem c2_amended_span_preserved (ctx : List (List Char × MValue)) :
    ∃ out,
      renderTemplateText
        "Hello \x7b\x7bname\x7d\x7d! $\x7b\x7b secrets.FOO \x7d\x7d bye".data
        ctx (fun s => s) = .ok out ∧
      "$\x7b\x7b secrets.FOO \x7d\x7d".data <:+: out := by
  have hpipe : renderTemplateText
      "Hello \x7b\x7bname\x7d\x7d! $\x7b\x7b secrets.FOO \x7d\x7d bye".data
      ctx (fun s => s) =
      .ok (unmaskGh ["$\x7b\x7b secrets.FOO \x7d\x7d".data]
        (renderAst ctx (fun s => s)
          (.text "Hello ".data (.var "name".data
            (.text "! __GH_EXPR_0__ bye".data .nil))))) := rfl
  refine ⟨_, hpipe, ?_⟩
  have hunm : ∀ s : List Char, ghToken 0 <:+: s →
      "$\x7b\x7b secrets.FOO \x7d\x7d".data <:+:
        unmaskGh ["$\x7b\x7b secrets.FOO \x7d\x7d".data] s := by
    intro s hs
    show _ <:+: joinWith _ (splitSub (ghToken 0) s)
    exact infix_joinWith_splitSub _ _ _ (by decide) hs
  apply hunm
  simp only [renderAst, List.append_nil]
  exact infix_append_right_right _ _ _ _ (by decide)

-- ### Claim C3: block truthiness

/-- C3 counterexample: the claim says the number 0 is truthy, but the
engine follows JavaScript truthiness, under which 0 is falsy: with `k`
bound to the number 0 the truthy-gated block is not rendered and the
negated block is. -/
theorem c3_counterexample_zero_is_falsy :
    renderTemplateText
      "\x7b\x7b#k\x7d\x7dX\x7b\x7b/k\x7d\x7d\x7b\x7b^k\x7d\x7dY\x7b\x7b/k\x7d\x7d".data
      [(['k'], MValue.int 0)] (fun s => s) = .ok ['Y'] ∧
    (['Y'] : List Char) ≠ ['X'] := by
  refine ⟨rfl, ?_⟩
  decide

/-- C3 (amended): a truthy-gated block `\x7b\x7b#k\x7d\x7d...\x7b\x7b/k\x7d\x7d`
is rendered exactly when the key's value is truthy and a negated block
`\x7b\x7b^k\x7d\x7d...\x7b\x7b/k\x7d\x7d` exactly when it is falsy, where
truthiness is JavaScript's: absent, boolean false, the empty string *and
the number 0* are falsy, and every other value of the closed variant is
truthy. -/
theorem c3_amended_truthiness :
    (∀ ctx : List (List Char × MValue),
      renderTemplateText
        "\x7b\x7b#k\x7d\x7dX\x7b\x7b/k\x7d\x7d\x7b\x7b^k\x7d\x7dY\x7b\x7b/k\x7d\x7d".data
        ctx (fun s => s) =
        .ok (if lookupTruthy ctx ['k'] then ['X'] else ['Y'])) ∧
    (∀ k, lookupTruthy [] k = false) ∧
    jsTruthy (.bool false) = false ∧
    jsTruthy (.str []) = false ∧
    jsTruthy (.int 0) = false ∧
    jsTruthy (.bool true) = true ∧
    (∀ s : List Char, s ≠ [] → jsTruthy (.str s) = true) ∧
    (∀ n : Int, n ≠ 0 → jsTruthy (.int n) = true) := by
  refine ⟨?_, ?_, rfl, rfl, rfl, rfl, ?_, ?_⟩
  · intro ctx
    have hpipe : renderTemplateText
        "\x7b\x7b#k\x7d\x7dX\x7b\x7b/k\x7d\x7d\x7b\x7b^k\x7d\x7dY\x7b\x7b/k\x7d\x7d".data
        ctx (fun s => s) =
        .ok (renderAst ctx (fun s => s)
          (.text [] (.sect ['k'] false (.text ['X'] .nil)
            (.text [] (.sect ['k'] true (.text ['Y'] .nil)
              (.text [] .nil)))))) := rfl
    rw [hpipe]
    cases h : lookupTruthy ctx ['k'] <;> simp [renderAst, h]
  · intro k
    rfl
  · intro s hs
    simp [jsTruthy, hs]
  · intro n hn
    simp [jsTruthy, hn]

-- ### Claim C4: unterminated foreign-expression openings

/-- C4 (amended): for a marked file containing a foreign-expression opening
`$\x7b\x7b` with no `\x7d\x7d` anywhere after it, the *masking* step indeed
leaves the unterminated opening as literal text (the lazy regex finds no
match), but the claim's conclusion fails for the render as a whole: the
substitution pass then parses the bare `\x7b\x7b` as an opening tag with no
closing delimiter and raises an unclosed-tag error. -/
theorem c4_amended_unterminated (raw : List Char)
    (ctx : List (List Char × MValue))
    (hopen : "$\x7b\x7b".data <:+: raw)
    (hnoclose : ¬ ("\x7d\x7d".data <:+: raw)) :
    maskGh raw = (raw, []) ∧
    renderTemplateText raw ctx (fun s => s) = .error .unclosedTag := by
  have hmask : maskGh raw = (raw, []) := by
    apply maskGh_no_close
    intro hc
    apply hnoclose
    have hgc : ghClose = "\x7d\x7d".data := rfl
    rwa [hgc] at hc
  refine ⟨hmask, ?_⟩
  have hopen2 : mustOpen <:+: raw := by
    have h12 : mustOpen <:+: "$\x7b\x7b".data := by decide
    exact h12.trans hopen
  obtain ⟨b1, r1, hsplit⟩ :=
    splitOnFirst_some_of_infix mustOpen raw (by decide) hopen2
  have hclose_none : splitOnFirst mustClose r1 = none := by
    cases hc : splitOnFirst mustClose r1 with
    | none => rfl
    | some r2 =>
      exfalso
      obtain ⟨bc, ac⟩ := r2
      have hd1 := splitOnFirst_decomp mustOpen raw b1 r1 hsplit
      have hd2 := splitOnFirst_decomp mustClose r1 bc ac hc
      apply hnoclose
      have hgc : mustClose = "\x7d\x7d".data := rfl
      rw [← hgc]
      refine ⟨b1 ++ mustOpen ++ bc, ac, ?_⟩
      rw [← hd1, ← hd2]
      simp [List.append_assoc]
  simp only [renderTemplateText, mustacheRender, lexTemplate, lexGo, hmask,
    hsplit, hclose_none]

/-- Witness for C4's amended theorem at the concrete file `a $\x7b\x7b b`
with an empty context. -/
theorem c4_amended_unterminated_witness :
    maskGh "a $\x7b\x7b b".data = ("a $\x7b\x7b b".data, []) ∧
    renderTemplateText "a $\x7b\x7b b".data [] (fun s => s) =
      .error .unclosedTag :=
  c4_amended_unterminated "a $\x7b\x7b b".data [] (by decide) (by decide)

-- ### Claim C9: write-before-delete per marked file

/-- C9: in one marked-file step the fully rendered text is written to the
destination before the original marked file is removed — on success the
effect trace is exactly a write to the destination followed by the removal
of the original, and the final file map is the original with the
destination written and then the original removed; on any failure (read,
render or write) the file map is untouched and no effect was performed, so
the original marked file still exists. -/
theorem c9_write_before_delete (st : RenderFsState)
    (orig dest : List String) (ctx : List (List Char × MValue))
    (failRead failWrite : Bool) (st' : RenderFsState)
    (oc : RenderStepOutcome) (tr : List FsEffect)
    (h : processMarkedEntry st orig dest ctx failRead failWrite =
      (st', oc, tr)) :
    (oc ≠ .ok → st'.files = st.files ∧ tr = []) ∧
    (oc = .ok → ∃ raw rendered,
      fsLookup st.files orig = some raw ∧
      renderTemplateText raw ctx (fun s => s) = .ok rendered ∧
      tr = [.wrote dest rendered, .removed orig] ∧
      st'.files = fsRemove (fsWrite st.files dest rendered) orig) := by
  cases hr : fsLookup st.files orig with
  | none =>
    simp only [processMarkedEntry, hr] at h
    simp only [Prod.mk.injEq] at h
    obtain ⟨h1, h2, h3⟩ := h
    subst h1; subst h2; subst h3
    simp
  | some raw =>
    cases failRead with
    | true =>
      simp only [processMarkedEntry, hr] at h
      simp only [Prod.mk.injEq] at h
      obtain ⟨h1, h2, h3⟩ := h
      subst h1; subst h2; subst h3
      simp
    | false =>
      cases hrt : renderTemplateText raw ctx (fun s => s) with
      | error e =>
        simp only [processMarkedEntry, hr, hrt] at h
        simp only [Prod.mk.injEq] at h
        obtain ⟨h1, h2, h3⟩ := h
        subst h1; subst h2; subst h3
        simp
      | ok rendered =>
        cases failWrite with
        | true =>
          simp only [processMarkedEntry, hr, hrt, if_true, Prod.mk.injEq] at h
          obtain ⟨h1, h2, h3⟩ := h
          subst h1; subst h2; subst h3
          simp
        | false =>
          simp only [processMarkedEntry, hr, hrt, Bool.false_eq_true,
            if_false, Prod.mk.injEq] at h
          obtain ⟨h1, h2, h3⟩ := h
          subst h1; subst h2; subst h3
          refine ⟨fun hno => absurd rfl hno,
            fun _ => ⟨raw, rendered, rfl, hrt, rfl, rfl⟩⟩

/-- Witness for C9 at a concrete state: one marked file, successful
render. -/
theorem c9_write_before_delete_witness :
    ∃ raw rendered,
      fsLookup [(["p", "t.mustache.txt"], "hi \x7b\x7bx\x7d\x7d".data)]
        ["p", "t.mustache.txt"] = some raw ∧
      renderTemplateText raw [(['x'], MValue.str ['!'])] (fun s => s) =
        .ok rendered ∧
      ([FsEffect.wrote ["p", "t.txt"] rendered,
        FsEffect.removed ["p", "t.mustache.txt"]] : List FsEffect) =
        [.wrote ["p", "t.txt"] rendered,
         .removed ["p", "t.mustache.txt"]] ∧
      (fsRemove (fsWrite [(["p", "t.mustache.txt"],
          "hi \x7b\x7bx\x7d\x7d".data)] ["p", "t.txt"] rendered)
        ["p", "t.mustache.txt"] : List (List String × List Char)) =
        fsRemove (fsWrite [(["p", "t.mustache.txt"],
          "hi \x7b\x7bx\x7d\x7d".data)] ["p", "t.txt"] rendered)
        ["p", "t.mustache.txt"] := by
  have h := (c9_write_before_delete
    ⟨[(["p", "t.mustache.txt"], "hi \x7b\x7bx\x7d\x7d".data)], fun s => s⟩
    ["p", "t.mustache.txt"] ["p", "t.txt"] [(['x'], MValue.str ['!'])]
    false false _ _ _ rfl).2 rfl
  obtain ⟨raw, rendered, h1, h2, _, _⟩ := h
  exact ⟨raw, rendered, h1, h2, rfl, rfl⟩

-- ### Claim C10: the global escape function is restored

/-- C10: one marked-file step installs the identity as the global mustache
escape only for the duration of rendering that file and restores the
previously installed escape afterwards in the `finally`, in every outcome:
after the step — successful or failed — the global escape state equals
what it was before. -/
theorem c10_escape_restored (st : RenderFsState)
    (orig dest : List String) (ctx : List (List Char × MValue))
    (failRead failWrite : Bool) :
    (processMarkedEntry st orig dest ctx failRead failWrite).1.escape =
      st.escape := by
  cases hr : fsLookup st.files orig with
  | none => simp [processMarkedEntry, hr]
  | some raw =>
    cases failRead with
    | true => simp [processMarkedEntry, hr]
    | false =>
      cases hrt : renderTemplateText raw ctx (fun s => s) with
      | error e => simp [processMarkedEntry, hr, hrt]
      | ok rendered =>
        cases failWrite with
        | true => simp [processMarkedEntry, hr, hrt]
        | false => simp [processMarkedEntry, hr, hrt]

-- ### Claim C6: listing prefers the API and falls back safely

/-- C6: a remote list call first issues the cheap Contents-API listing
query, whose answer is filtered to directory entries and (by default)
excludes "shared" (first conjunct); a nonempty API answer is returned with
no fallback (second conjunct); whenever the query fails or returns
nothing, the call falls back to a full download-and-resolve followed by a
local directory listing, and a failing fallback yields the empty set
rather than an exception (third conjunct); in particular a definitive
"not present" for the language — a 404 on the listing query and a download
whose existence probe throws — returns the empty set (fourth conjunct). -/
theorem c6_list_fallback (cache : List (String × List String))
    (lang : String) (item : Option String) (includeShared : Bool)
    (api : ApiResult) (dl : Except Unit FTree) (entries : List GhEntry) :
    (assocLookup cache (listCacheKey lang item false) = none →
      (listRemoteChildDirsViaAPI cache lang item false (.arr entries)).1 =
        some (((entries.filter (fun e => e.etype = "dir")).map
          (fun e => e.name)).filter (fun n => !(n.toLower == "shared")))) ∧
    (∀ names,
      (listRemoteChildDirsViaAPI cache lang item includeShared api).1 =
        some names →
      names ≠ [] →
      listAvailableTemplatesRemote cache lang item includeShared api dl =
        ⟨names,
         (listRemoteChildDirsViaAPI cache lang item includeShared api).2,
         false⟩) ∧
    ((listRemoteChildDirsViaAPI cache lang item includeShared api).1 =
        none ∨
      (listRemoteChildDirsViaAPI cache lang item includeShared api).1 =
        some [] →
      (listAvailableTemplatesRemote cache lang item includeShared api
        dl).usedFallback = true ∧
      (listAvailableTemplatesRemote cache lang item includeShared api
        dl).names =
        (match dl with
         | .ok dir => listChildDirs dir includeShared
         | .error _ => [])) ∧
    (assocLookup cache (listCacheKey lang item includeShared) = none →
      listAvailableTemplatesRemote cache lang item includeShared
        .httpError (.error ()) = ⟨[], cache, true⟩) := by
  refine ⟨?_, ?_, ?_, ?_⟩
  · intro hmiss
    simp [listRemoteChildDirsViaAPI, hmiss]
  · intro names hapi hne
    have hpos : names.length > 0 := List.length_pos.mpr hne
    simp only [listAvailableTemplatesRemote, hapi, if_pos hpos]
  · intro hfail
    cases hfail with
    | inl hfail =>
      cases dl with
      | ok dir =>
        simp [listAvailableTemplatesRemote, hfail]
      | error e =>
        simp [listAvailableTemplatesRemote, hfail]
    | inr hfail =>
      cases dl with
      | ok dir =>
        simp [listAvailableTemplatesRemote, hfail]
      | error e =>
        simp [listAvailableTemplatesRemote, hfail]
  · intro hmiss
    simp [listAvailableTemplatesRemote, listRemoteChildDirsViaAPI, hmiss]

/-- Witness for C6: with a fresh cache, a 404 on the listing query and a
failing download, the list call returns the empty set. -/
theorem c6_list_fallback_witness :
    listAvailableTemplatesRemote [] "haskell" (some "package") false
      .httpError (.error ()) = ⟨[], [], true⟩ :=
  (c6_list_fallback [] "haskell" (some "package") false .httpError
    (.error ()) []).2.2.2 rfl

-- ### Claim C7: request coalescing and memoization

/-- C7: starting from a state with no cached path and no in-flight
download for a spec, the first `resolve` call starts the one download body
and registers it in-flight; a second call for the identical spec — issued
while the first is in flight — attaches to the same promise without
changing the state, so exactly one underlying download is invoked; once
the body completes successfully its normalized path is memoized under the
canonical spec string, and a subsequent call returns the cached directory
with no further download. -/
theorem c7_coalescing_memoization (st : RegState) (spec p : String)
    (hc : assocLookup st.pathCache spec = none)
    (hf : assocLookup st.inFlightDownloads spec = none) :
    (startResolveRemote st spec).2 = .started st.nextId ∧
    (startResolveRemote (startResolveRemote st spec).1 spec).2 =
      .attached st.nextId ∧
    (startResolveRemote (startResolveRemote st spec).1 spec).1 =
      (startResolveRemote st spec).1 ∧
    (startResolveRemote st spec).1.downloadsStarted =
      st.downloadsStarted + 1 ∧
    (startResolveRemote (settleDownload (startResolveRemote st spec).1
      spec (some p)) spec).2 = .cachedHit p ∧
    (startResolveRemote (settleDownload (startResolveRemote st spec).1
      spec (some p)) spec).1.downloadsStarted =
      st.downloadsStarted + 1 := by
  refine ⟨?_, ?_, ?_, ?_, ?_, ?_⟩ <;>
    simp [startResolveRemote, settleDownload, assocLookup, hc, hf]

/-- Witness for C7 from the empty registry state. -/
theorem c7_coalescing_memoization_witness :
    (startResolveRemote ⟨[], [], 0, 0⟩
      (buildGigetSpec "typescript" (some "package/basic"))).2 =
      .started 0 ∧
    (startResolveRemote
      (settleDownload
        (startResolveRemote ⟨[], [], 0, 0⟩
          (buildGigetSpec "typescript" (some "package/basic"))).1
        (buildGigetSpec "typescript" (some "package/basic"))
        (some "/tmp/grimoire-templates-x"))
      (buildGigetSpec "typescript" (some "package/basic"))).2 =
      .cachedHit "/tmp/grimoire-templates-x" := by
  have h := c7_coalescing_memoization ⟨[], [], 0, 0⟩
    (buildGigetSpec "typescript" (some "package/basic"))
    "/tmp/grimoire-templates-x" rfl rfl
  exact ⟨h.1, h.2.2.2.2.1⟩

/-- Witness for C3's amended theorem: a context binding `k` to the number
3 (truthy) renders the gated block. -/
theorem c3_amended_truthiness_witness :
    renderTemplateText
      "\x7b\x7b#k\x7d\x7dX\x7b\x7b/k\x7d\x7d\x7b\x7b^k\x7d\x7dY\x7b\x7b/k\x7d\x7d".data
      [(['k'], MValue.int 3)] (fun s => s) =
      .ok (if lookupTruthy [(['k'], MValue.int 3)] ['k']
        then ['X'] else ['Y']) ∧
    jsTruthy (.int 3) = true :=
  ⟨c3_amended_truthiness.1 [(['k'], MValue.int 3)],
   c3_amended_truthiness.2.2.2.2.2.2.2 3 (by decide)⟩

/-- C4 counterexample: the claim says the render does not raise on an
unterminated `$\x7b\x7b` opening, but on the concrete marked file
`a $\x7b\x7b b` (no `\x7d\x7d` anywhere) the render pass raises an
unclosed-tag error. -/
theorem c4_counterexample_render_raises :
    renderTemplateText "a $\x7b\x7b b".data [] (fun s => s) =
      .error .unclosedTag := rfl
